import Mathlib

/-!
Verification of the docusaurus-openai-search backend (src/src/index.ts).

The development shallowly embeds the pure decision logic of the service:
the heuristic response validator `validateAIResponse`, the query-intent
classifier `analyzeQueryIntent` (with its regex fallback), the multi-source
result aggregator `aggregateMultiSourceResults`, and the in-memory
conversation-session store and its history handler.

Conventions of the embedding:
- JavaScript strings are modelled as Lean `String`/`List Char`; the regex
  tests of the source are translated into explicit character scanners with
  the same matching semantics (JS `.` does not match line terminators;
  `\s` is the whitespace class; `i`-flagged patterns scan a lowercased
  copy).  Lowercasing uses `Char.toLower` (agrees with JS on ASCII, which
  is all the patterns contain).
- `await`ed external calls (the OpenAI completion calls) are modelled by an
  explicit `Except Unit _` parameter: `.error` is a thrown/failed call (or
  unparseable JSON where the source parses the reply), `.ok` a delivered
  value.  Everything after the call is a pure function of that outcome.
- JSON values produced by `JSON.parse` are modelled by `JsonVal`; property
  access on a non-object yields `none` (JS `undefined`), and the JS
  truthiness test `x || d` is `jsOr`.  JSON numbers are modelled as `Int`
  (truthiness `n ≠ 0` agrees with JS on integral values).
- The float source weights are modelled as `ℚ`; the weights occurring in
  the program (0.5, 0.3, 0.15, 0.05 and the 0.1 resolved bonus) and their
  sums are exactly representable, and comparisons agree with the JS
  float comparisons on them.
- `Date` values are modelled as `Nat` timestamps.
-/

/-- Character code 39, the ASCII apostrophe, used inside matched phrases. -/
def aposChar : Char := Char.ofNat 39

/-- Character code 96, the ASCII backtick, used by the code-example regex. -/
def btickChar : Char := Char.ofNat 96

/-- The characters JS `.` refuses to match (ECMAScript LineTerminator). -/
def jsLineTerm (c : Char) : Bool :=
  c == '\n' || c == '\r' || c == Char.ofNat 0x2028 || c == Char.ofNat 0x2029

/-- The JS `\s` whitespace class (restricted to its common members;
the patterns of the source only ever meet ASCII whitespace). -/
def jsSpace (c : Char) : Bool :=
  c == ' ' || c == '\t' || c == '\n' || c == '\r' ||
  c == Char.ofNat 0x0b || c == Char.ofNat 0x0c ||
  c == Char.ofNat 0xa0 || c == Char.ofNat 0xfeff

/-- Character list of a string literal. -/
def toChars (s : String) : List Char := s.data

/-- Lowercase a character list, as `String.prototype.toLowerCase` on ASCII. -/
def lowerChars (s : List Char) : List Char := s.map Char.toLower

/-- `jsStartsWith pat s` holds when `pat` is a prefix of `s`. -/
def jsStartsWith : List Char → List Char → Bool
  | [], _ => true
  | _ :: _, [] => false
  | p :: ps, c :: cs => p == c && jsStartsWith ps cs

/-- `jsHasSub pat s`: `pat` occurs as a contiguous substring of `s`
(the existence semantics of an unanchored literal regex). -/
def jsHasSub (pat : List Char) : List Char → Bool
  | [] => jsStartsWith pat []
  | c :: cs => jsStartsWith pat (c :: cs) || jsHasSub pat cs

/-- Suffix of `s` that follows the first occurrence of `pat`, if any. -/
def dropAfterSub (pat : List Char) : List Char → Option (List Char)
  | [] => if pat.isEmpty then some [] else none
  | c :: cs =>
    if jsStartsWith pat (c :: cs) then some ((c :: cs).drop pat.length)
    else dropAfterSub pat cs

/-- Sequential matching of several literals with arbitrary gaps, the
existence semantics of `p₁.*p₂.*p₃` within one line. -/
def jsInOrder : List (List Char) → List Char → Bool
  | [], _ => true
  | p :: ps, s =>
    match dropAfterSub p s with
    | some rest => jsInOrder ps rest
    | none => false

/-- Split on line terminators; the segments are the regions a JS `.` run
is confined to. -/
def splitLinesAux (cur : List Char) : List Char → List (List Char)
  | [] => [cur.reverse]
  | c :: cs =>
    if jsLineTerm c then cur.reverse :: splitLinesAux [] cs
    else splitLinesAux (c :: cur) cs

/-- All line segments of a character list. -/
def splitLines (s : List Char) : List (List Char) := splitLinesAux [] s

mutual
/-- Accumulating worker for `jsSplitWs`: reading a token. -/
def jsSplitTok (cur : List Char) : List Char → List (List Char)
  | [] => [cur.reverse]
  | c :: cs =>
    if jsSpace c then cur.reverse :: jsSplitRun cs else jsSplitTok (c :: cur) cs

/-- Accumulating worker for `jsSplitWs`: inside a whitespace run. -/
def jsSplitRun : List Char → List (List Char)
  | [] => [[]]
  | c :: cs => if jsSpace c then jsSplitRun cs else jsSplitTok [c] cs
end

/-- `s.split(/\s+/)` of ECMAScript: pieces between maximal whitespace
runs, keeping the empty pieces produced at the ends ("" yields [""]). -/
def jsSplitWs (s : List Char) : List (List Char) := jsSplitTok [] s

/-- `answer.split(/\s+/).length`, the word count of the validator. -/
def jsWordCount (s : List Char) : Nat := (jsSplitWs s).length

/-- Literal head of the citation pattern `/\[Source:.*?\]\(.*?\)/g`
(case-sensitive: the regex carries no `i` flag). -/
def sourcePat : List Char := toChars "[Source:"

/-- Scan for the first `)` on the current line (`.*?\)`); `none` when a
line terminator or the end of input intervenes. -/
def afterCloseParen : List Char → Option (List Char)
  | [] => none
  | c :: cs =>
    if jsLineTerm c then none
    else if c == ')' then some cs
    else afterCloseParen cs

/-- Scan for `](` on the current line and then a `)` after it
(`.*?\]\(.*?\)` with backtracking: a `](` with no close paren on the
line is skipped in favour of the next one). -/
def afterBracketParen : List Char → Option (List Char)
  | [] => none
  | c :: cs =>
    if jsLineTerm c then none
    else if jsStartsWith [']', '('] (c :: cs) then
      match afterCloseParen ((c :: cs).drop 2) with
      | some rest => some rest
      | none => afterBracketParen cs
    else afterBracketParen cs

/-- Worker for `countCitations`; the fuel only bounds the iteration count
(every step consumes at least one character, so `s.length` fuel is
never exhausted). -/
def countCitationsAux : Nat → List Char → Nat
  | 0, _ => 0
  | _, [] => 0
  | fuel + 1, c :: cs =>
    if jsStartsWith sourcePat (c :: cs) then
      match afterBracketParen ((c :: cs).drop sourcePat.length) with
      | some rest => 1 + countCitationsAux fuel rest
      | none => countCitationsAux fuel cs
    else countCitationsAux fuel cs

/-- Number of matches of `answer.match(/\[Source:.*?\]\(.*?\)/g)`. -/
def countCitations (s : List Char) : Nat := countCitationsAux s.length s

/-- Literal head of `/Confidence:\s*(HIGH|MEDIUM|LOW)/i`, lowered. -/
def confidencePat : List Char := toChars "confidence:"

/-- First match of `/Confidence:\s*(HIGH|MEDIUM|LOW)/i` on the lowered
answer, returning the captured level uppercased as the source does. -/
def confLevelFrom : List Char → Option String
  | [] => none
  | c :: cs =>
    if jsStartsWith confidencePat (c :: cs) then
      let rest := ((c :: cs).drop confidencePat.length).dropWhile jsSpace
      if jsStartsWith (toChars "high") rest then some "HIGH"
      else if jsStartsWith (toChars "medium") rest then some "MEDIUM"
      else if jsStartsWith (toChars "low") rest then some "LOW"
      else confLevelFrom cs
    else confLevelFrom cs

/-- The literal first alternative of the not-found pattern: the word
couldn, an apostrophe, then "t find this information". -/
def notFoundPhrase : List Char :=
  toChars "couldn" ++ [aposChar] ++ toChars "t find this information"

/-- Test of the notFoundPattern regex on the lowered answer: the literal
phrase alternative, `not.*in.*documentation`, or
`no.*information.*available`; the dotted alternatives are confined to one
line because `.` does not match line terminators. -/
def isNotFoundIn (low : List Char) : Bool :=
  jsHasSub notFoundPhrase low
  || (splitLines low).any (fun line =>
        jsInOrder [toChars "not", toChars "in", toChars "documentation"] line)
  || (splitLines low).any (fun line =>
        jsInOrder [toChars "no", toChars "information", toChars "available"] line)

/-- Three backticks, the fence delimiter. -/
def fencePat : List Char := [btickChar, btickChar, btickChar]

/-- Test of the fenced alternative ```` ```[\s\S]*?``` ````: a fence and a
second fence after it ([\s\S] crosses lines freely). -/
def hasFencedCode (s : List Char) : Bool :=
  match dropAfterSub fencePat s with
  | some rest => jsHasSub fencePat rest
  | none => false

/-- After one non-backtick character, scan for the closing backtick. -/
def inlineRest : List Char → Bool
  | [] => false
  | c :: cs => c == btickChar || inlineRest cs

/-- Continuation after an opening backtick: `[^`]+` then a backtick. -/
def inlineAfterOpen : List Char → Bool
  | [] => false
  | c :: cs => !(c == btickChar) && inlineRest cs

/-- Test of the inline-code alternative `` `[^`]+` ``. -/
def hasInlineCode : List Char → Bool
  | [] => false
  | c :: cs => (c == btickChar && inlineAfterOpen cs) || hasInlineCode cs

/-- Test of `/\d+\.\s|\n-\s|\n\*\s/g` (a digit, dot, whitespace triple, or
a newline-bullet-whitespace triple, anywhere). -/
def hasStepPattern : List Char → Bool
  | c1 :: c2 :: c3 :: rest =>
    (c1.isDigit && c2 == '.' && jsSpace c3)
    || (c1 == '\n' && (c2 == '-' || c2 == '*') && jsSpace c3)
    || hasStepPattern (c2 :: c3 :: rest)
  | _ => false

/-- The alternatives of `/might be|probably|likely|seems like|appears to|I think|I believe/i`,
lowered. -/
def speculativePhrases : List (List Char) :=
  [toChars "might be", toChars "probably", toChars "likely", toChars "seems like",
   toChars "appears to", toChars "i think", toChars "i believe"]

/-- Speculative-language test on the lowered answer. -/
def hasSpeculative (low : List Char) : Bool :=
  speculativePhrases.any (fun p => jsHasSub p low)

/-- One retrieved document as supplied by the caller of the endpoints. -/
structure Document where
  title : String
  url : String
  content : String
deriving DecidableEq, Repr

/-- The qualityMetrics record of `validateAIResponse`. -/
structure QualityMetrics where
  hasCodeExamples : Bool
  hasStepByStep : Bool
  hasSpeculativeLanguage : Bool
  citationCount : Nat
  wordCount : Nat
deriving DecidableEq, Repr

/-- The ValidationResult record of `validateAIResponse`. -/
structure ValidationResult where
  isValid : Bool
  hasCitation : Bool
  hasConfidence : Bool
  confidence : String
  isNotFound : Bool
  warnings : List String
  score : Nat
  qualityMetrics : QualityMetrics
deriving DecidableEq, Repr

/-- The additive score of the validator, factored out of the sequence of
`if (...) score += k` statements of the source. -/
def rubricScore (hasConfidence hasCitation isNotFound hasCodeExamples
    hasStepByStep hasSpeculativeLanguage : Bool) (wordCount : Nat) : Nat :=
  (if hasConfidence then 25 else 0)
  + (if hasCitation || isNotFound then 25 else 0)
  + (if hasCodeExamples then 15 else 0)
  + (if hasStepByStep then 15 else 0)
  + (if !hasSpeculativeLanguage then 10 else 0)
  + (if 50 ≤ wordCount then 10 else 0)

/-- Embedding of `validateAIResponse(answer, documents)` of src/src/index.ts. -/
def validateAIResponse (answer : String) (documents : List Document) : ValidationResult :=
  let s := answer.data
  let low := lowerChars s
  let citationCount := countCitations s
  let hasCitation : Bool := decide (0 < citationCount)
  let confLevel := confLevelFrom low
  let hasConfidence : Bool := confLevel.isSome
  let confidence : String := confLevel.getD "UNKNOWN"
  let isNotFound : Bool := isNotFoundIn low
  let hasCodeExamples : Bool := hasFencedCode s || hasInlineCode s
  let hasStepByStep : Bool := hasStepPattern s
  let hasSpeculativeLanguage : Bool := hasSpeculative low
  let wordCount : Nat := jsWordCount s
  let warnings : List String :=
    (if !hasCitation && !isNotFound then ["Response should include source citations"] else [])
    ++ (if !hasConfidence then ["Response should include confidence level"] else [])
    ++ (if hasSpeculativeLanguage && !isNotFound then ["Response contains speculative language"] else [])
    ++ (if decide (wordCount < 20) && !isNotFound then ["Response may be too brief"] else [])
    ++ (if decide (0 < documents.length) && citationCount == 0 && !isNotFound then
          ["Response should reference provided documents"] else [])
  let score := rubricScore hasConfidence hasCitation isNotFound hasCodeExamples
    hasStepByStep hasSpeculativeLanguage wordCount
  { isValid := decide (60 ≤ score)
    hasCitation := hasCitation
    hasConfidence := hasConfidence
    confidence := confidence
    isNotFound := isNotFound
    warnings := warnings
    score := score
    qualityMetrics :=
      { hasCodeExamples := hasCodeExamples
        hasStepByStep := hasStepByStep
        hasSpeculativeLanguage := hasSpeculativeLanguage
        citationCount := citationCount
        wordCount := wordCount } }

/-- JSON values as produced by `JSON.parse` (object keys already
deduplicated, as `JSON.parse` keeps the last occurrence; numbers modelled
as integers). -/
inductive JsonVal where
  | null
  | bool (b : Bool)
  | num (n : Int)
  | str (s : String)
  | arr (elems : List JsonVal)
  | obj (fields : List (String × JsonVal))

/-- JS property access `v.k` on a parsed JSON value: a lookup on objects,
`undefined` (here `none`) on every other non-null value.  Access on
`null` throws and is handled at the call site. -/
def JsonVal.getField : JsonVal → String → Option JsonVal
  | .obj fields, k => (fields.find? (fun p => p.1 == k)).map (fun p => p.2)
  | _, _ => none

/-- JS truthiness of a parsed JSON value. -/
def JsonVal.truthy : JsonVal → Bool
  | .null => false
  | .bool b => b
  | .num n => !(n == 0)
  | .str s => !(s == "")
  | .arr _ => true
  | .obj _ => true

/-- The JS default idiom `v.k || d` (with `none` standing for undefined). -/
def jsOr (v : Option JsonVal) (dflt : JsonVal) : JsonVal :=
  match v with
  | some x => if x.truthy then x else dflt
  | none => dflt

/-- Return shape of `analyzeQueryIntent`.  The source annotates `type` with
the six-value TypeScript union, but the value assigned on the primary path
is whatever truthy JSON the model produced, so the embedding keeps the raw
`JsonVal` in each field. -/
structure QueryAnalysisJs where
  type : JsonVal
  intent : JsonVal
  reformulated : JsonVal
  keywords : List JsonVal
  complexity : JsonVal

/-- The six categories the TypeScript union of `QueryAnalysis.type` admits. -/
def categoryStrings : List String :=
  ["how-to", "what-is", "troubleshooting", "configuration", "api-reference", "general"]

/-- Scan of `/how\s+to|how\s+do|how\s+can/i` on the lowered query: "how",
one or more whitespace characters, then "to", "do" or "can". -/
def scanHowTo : List Char → Bool
  | [] => false
  | c :: cs =>
    (jsStartsWith (toChars "how") (c :: cs) &&
      (match (c :: cs).drop 3 with
       | c2 :: cs2 =>
         jsSpace c2 &&
           (let r := cs2.dropWhile jsSpace
            jsStartsWith (toChars "to") r || jsStartsWith (toChars "do") r ||
              jsStartsWith (toChars "can") r)
       | [] => false))
    || scanHowTo cs

/-- Scan of `/what\s+is|what\s+are|what\s+does/i` on the lowered query. -/
def scanWhatIs : List Char → Bool
  | [] => false
  | c :: cs =>
    (jsStartsWith (toChars "what") (c :: cs) &&
      (match (c :: cs).drop 4 with
       | c2 :: cs2 =>
         jsSpace c2 &&
           (let r := cs2.dropWhile jsSpace
            jsStartsWith (toChars "is") r || jsStartsWith (toChars "are") r ||
              jsStartsWith (toChars "does") r)
       | [] => false))
    || scanWhatIs cs

/-- Scan of the `not\s+working` alternative of the troubleshooting test. -/
def scanNotWorking : List Char → Bool
  | [] => false
  | c :: cs =>
    (jsStartsWith (toChars "not") (c :: cs) &&
      (match (c :: cs).drop 3 with
       | c2 :: cs2 =>
         jsSpace c2 && jsStartsWith (toChars "working") (cs2.dropWhile jsSpace)
       | [] => false))
    || scanNotWorking cs

/-- Test of `/error|issue|problem|fix|broken|not\s+working/i` on the
lowered query. -/
def testTroubleshooting (q : List Char) : Bool :=
  jsHasSub (toChars "error") q || jsHasSub (toChars "issue") q
  || jsHasSub (toChars "problem") q || jsHasSub (toChars "fix") q
  || jsHasSub (toChars "broken") q || scanNotWorking q

/-- Test of `/config|setup|install|configure/i` on the lowered query. -/
def testConfig (q : List Char) : Bool :=
  jsHasSub (toChars "config") q || jsHasSub (toChars "setup") q
  || jsHasSub (toChars "install") q || jsHasSub (toChars "configure") q

/-- The if/else chain of the catch block of `analyzeQueryIntent`: the
how-to test wins over what-is, troubleshooting and configuration. -/
def fallbackType (query : String) : String :=
  let q := lowerChars query.data
  if scanHowTo q then "how-to"
  else if scanWhatIs q then "what-is"
  else if testTroubleshooting q then "troubleshooting"
  else if testConfig q then "configuration"
  else "general"

/-- `query.toLowerCase().split(/\s+/).filter(w => w.length > 2).slice(0, 5)`. -/
def fallbackKeywords (query : String) : List String :=
  ((((jsSplitWs (lowerChars query.data)).filter (fun w => decide (2 < w.length))).map
      String.mk).take 5)

/-- The catch-block result of `analyzeQueryIntent`. -/
def fallbackAnalysis (query : String) : QueryAnalysisJs :=
  { type := .str (fallbackType query)
    intent := .str ("User is asking about " ++ query)
    reformulated := .str query
    keywords := (fallbackKeywords query).map JsonVal.str
    complexity := .str "beginner" }

/-- The try-block result of `analyzeQueryIntent` once `JSON.parse`
delivered a non-null value. -/
def primaryAnalysis (analysis : JsonVal) (query : String) : QueryAnalysisJs :=
  { type := jsOr (analysis.getField "type") (.str "general")
    intent := jsOr (analysis.getField "intent") (.str "General information request")
    reformulated := jsOr (analysis.getField "reformulated") (.str query)
    keywords :=
      match analysis.getField "keywords" with
      | some (.arr xs) => xs
      | _ => []
    complexity := jsOr (analysis.getField "complexity") (.str "beginner") }

/-- Embedding of `analyzeQueryIntent(query)`.  `modelOutcome` is the
combined outcome of the awaited completion call and `JSON.parse` of its
content: `.error` when the call threw or the content was unparseable,
`.ok v` the parsed value.  `.ok .null` (the content "null") makes the
property access `analysis.type` throw, which the same catch block turns
into the fallback. -/
def analyzeQueryIntent (modelOutcome : Except Unit JsonVal) (query : String) : QueryAnalysisJs :=
  match modelOutcome with
  | .error _ => fallbackAnalysis query
  | .ok .null => fallbackAnalysis query
  | .ok v => primaryAnalysis v query

/-- The four source tags of `MultiSourceResult.source`. -/
inductive SourceTag where
  | documentation
  | github
  | blog
  | changelog
deriving DecidableEq, Repr

/-- String interpolation of a source tag, as in the fallback answer. -/
def SourceTag.toStr : SourceTag → String
  | .documentation => "documentation"
  | .github => "github"
  | .blog => "blog"
  | .changelog => "changelog"

/-- The metadata record of a `MultiSourceResult`; weights are the float
source priorities, modelled exactly as rationals. -/
structure SourceMeta where
  weight : ℚ
  timestamp : Option String
  author : Option String
  type : Option String
deriving DecidableEq, Repr

/-- One merged search result (interface `MultiSourceResult`). -/
structure MultiSourceResult where
  source : SourceTag
  title : String
  url : String
  content : String
  metadata : SourceMeta
deriving DecidableEq, Repr

/-- A raw documentation result as passed to the aggregator. -/
structure DocResult where
  title : String
  url : String
  content : String
  timestamp : Option String
deriving DecidableEq, Repr

/-- DEFAULT_CONFIG.multiSource.sources.documentation.weight. -/
def documentationWeight : ℚ := 1/2

/-- DEFAULT_CONFIG.multiSource.sources.github.weight. -/
def githubWeight : ℚ := 3/10

/-- DEFAULT_CONFIG.multiSource.sources.blog.weight. -/
def blogWeight : ℚ := 3/20

/-- DEFAULT_CONFIG.multiSource.sources.changelog.weight. -/
def changelogWeight : ℚ := 1/20

/-- The documentation-result mapping at the head of
`aggregateMultiSourceResults`. -/
def docToSource (doc : DocResult) : MultiSourceResult :=
  { source := .documentation
    title := doc.title
    url := doc.url
    content := doc.content
    metadata :=
      { weight := documentationWeight
        timestamp := doc.timestamp
        author := none
        type := some "documentation" } }

/-- The comparator key of the aggregator sort: the weight, plus a flat
0.1 bonus when metadata.type is the string "resolved". -/
def sortKey (r : MultiSourceResult) : ℚ :=
  r.metadata.weight + (if r.metadata.type = some "resolved" then 1/10 else 0)

/-- Insertion step of the stable descending sort: a later element is
placed after every earlier element whose key is at least as large. -/
def insertByKeyDesc {α : Type} (key : α → ℚ) (x : α) : List α → List α
  | [] => [x]
  | y :: ys => if key y ≤ key x then x :: y :: ys else y :: insertByKeyDesc key x ys

/-- Stable descending sort by a rational key, the semantics of the
ECMAScript stable `Array.prototype.sort` with comparator
`(a, b) => keyOf(b) - keyOf(a)`. -/
def sortByKeyDesc {α : Type} (key : α → ℚ) : List α → List α
  | [] => []
  | x :: xs => insertByKeyDesc key x (sortByKeyDesc key xs)

/-- The sourceBreakdown record of the aggregation metrics. -/
structure SourceBreakdown where
  documentation : Nat
  github : Nat
  blog : Nat
  changelog : Nat
deriving DecidableEq, Repr

/-- The aggregationMetrics record. -/
structure AggregationMetrics where
  totalSources : Nat
  sourceBreakdown : SourceBreakdown
  confidenceScore : Nat
deriving DecidableEq, Repr

/-- Return shape of `aggregateMultiSourceResults`
(interface `AggregatedSearchResult`). -/
structure AggregatedSearchResult where
  answer : String
  sources : List MultiSourceResult
  aggregationMetrics : AggregationMetrics
deriving DecidableEq, Repr

/-- JS `content.substring(0, 200)`, modelled on characters. -/
def take200 (s : String) : String := String.mk (s.data.take 200)

/-- Embedding of `aggregateMultiSourceResults`.  `modelOutcome` is the
outcome of the awaited aggregation completion call: `.ok content` carries
`response.choices[0]?.message?.content` (`none` when absent), `.error`
a thrown call, which the catch block turns into the concatenation
fallback.  The source sorts `allSources` in place, so the fallback
concatenation and the returned `sources` both see the sorted list. -/
def aggregateMultiSourceResults (modelOutcome : Except Unit (Option String))
    (query : String) (documentationResults : List DocResult)
    (githubResults blogResults changelogResults : List MultiSourceResult)
    (systemContext : Option String) : AggregatedSearchResult :=
  let allSources : List MultiSourceResult :=
    documentationResults.map docToSource ++ githubResults ++ blogResults ++ changelogResults
  let sortedSources := sortByKeyDesc sortKey allSources
  let breakdown : SourceBreakdown :=
    { documentation := documentationResults.length
      github := githubResults.length
      blog := blogResults.length
      changelog := changelogResults.length }
  match modelOutcome with
  | .ok content =>
    let answer := content.getD "Unable to aggregate results"
    let confidenceScore :=
      min 100 (sortedSources.length * 10
        + (githubResults.filter (fun r => decide (r.metadata.type = some "resolved"))).length * 15
        + (sortedSources.filter (fun s => decide (s.source = SourceTag.documentation))).length * 20)
    { answer := answer
      sources := sortedSources
      aggregationMetrics :=
        { totalSources := allSources.length
          sourceBreakdown := breakdown
          confidenceScore := confidenceScore } }
  | .error _ =>
    let fallbackAnswer := "Based on multiple sources:\n\n"
      ++ String.intercalate "\n\n" (sortedSources.map (fun s =>
           "**" ++ s.title ++ "** (" ++ s.source.toStr ++ "): " ++ take200 s.content ++ "..."))
    { answer := fallbackAnswer
      sources := sortedSources
      aggregationMetrics :=
        { totalSources := allSources.length
          sourceBreakdown := breakdown
          confidenceScore := 50 } }

/-- One stored conversation turn (interface `ConversationTurn`). -/
structure ConversationTurn where
  query : String
  answer : String
  timestamp : Nat
  queryAnalysis : Option QueryAnalysisJs
  sources : Option (List MultiSourceResult)
  validation : Option ValidationResult

/-- One stored session (interface `ConversationSession`). -/
structure ConversationSession where
  sessionId : String
  turns : List ConversationTurn
  createdAt : Nat
  lastActiveAt : Nat
  context : String

/-- The turn append of the generate-answer-with-memory handler:
`session.turns.push(turn)` followed by
`if (session.turns.length > 10) session.turns = session.turns.slice(-10)`. -/
def appendTurnCapped (turns : List ConversationTurn) (t : ConversationTurn) :
    List ConversationTurn :=
  let ts := turns ++ [t]
  if 10 < ts.length then ts.drop (ts.length - 10) else ts

/-- The per-turn projection of the history handler response
(query, answer, timestamp, queryAnalysis). -/
structure HistoryEntry where
  query : String
  answer : String
  timestamp : Nat
  queryAnalysis : Option QueryAnalysisJs

/-- Projection of a stored turn into a history response entry. -/
def projectTurn (t : ConversationTurn) : HistoryEntry :=
  { query := t.query
    answer := t.answer
    timestamp := t.timestamp
    queryAnalysis := t.queryAnalysis }

/-- The turns field of the history response for a session. -/
def getHistory (s : ConversationSession) : List HistoryEntry :=
  s.turns.map projectTurn

/-- The process-wide `conversationSessions` map, modelled as an
insertion-ordered association list with the unique-key lookup of a Map. -/
abbrev SessionStore := List (String × ConversationSession)

/-- `conversationSessions.get(sessionId)`: the value stored under the
first (in a Map, only) entry with the given key. -/
def lookupSession : SessionStore → String → Option ConversationSession
  | [], _ => none
  | p :: rest, sid => if p.1 = sid then some p.2 else lookupSession rest sid

/-- Outcome of GET /api/session/:sessionId/history: the 200 payload or the
404 Session-not-found error. -/
inductive HistoryOutcome where
  | ok (sessionId : String) (turns : List HistoryEntry) (createdAt : Nat) (lastActiveAt : Nat)
  | notFound

/-- Embedding of the session history handler: look the session up, update
its `lastActiveAt` in place (reflected here as a keyed store update), and
answer with the projected turns; a missing session yields 404 and leaves
the store untouched. -/
def sessionHistoryHandler (store : SessionStore) (sid : String) (now : Nat) :
    HistoryOutcome × SessionStore :=
  match lookupSession store sid with
  | none => (.notFound, store)
  | some s =>
    let s2 := { s with lastActiveAt := now }
    (.ok sid (s2.turns.map projectTurn) s2.createdAt s2.lastActiveAt,
     store.map (fun p => if p.1 = sid then (p.1, s2) else p))

/-! ## Theorems -/

/-- Negating the condition of a two-branch numeric if swaps the branches. -/
theorem ite_not_bool (b : Bool) (x y : Nat) :
    (if (!b) = true then x else y) = if b = true then y else x := by
  cases b <;> simp

/-- The additive rubric can reach at most 25+25+15+15+10+10 = 100. -/
theorem rubricScore_le_100 (b1 b2 b3 b4 b5 b6 : Bool) (wc : Nat) :
    rubricScore b1 b2 b3 b4 b5 b6 wc ≤ 100 := by
  cases b1 <;> cases b2 <;> cases b3 <;> cases b4 <;> cases b5 <;> cases b6 <;>
    simp [rubricScore] <;> split <;> omega

/-- Claim C1: for every answer string and every document list,
`validateAIResponse` returns a score in [0,100] (the score is a `Nat`, so
nonnegativity holds by type) computed as the additive rubric — +25 for a
confidence tag, +25 for a citation or a not-found response, +15 for a code
example, +15 for step structure, +10 for no speculative language, +10 for
a word count of at least 50 — and `isValid` equals `score >= 60`, the
boundary value 60 itself counting as valid (witnessed by a concrete
answer scoring exactly 60). -/
theorem claim1_validator_rubric (answer : String) (documents : List Document) :
    (validateAIResponse answer documents).score ≤ 100
    ∧ (validateAIResponse answer documents).isValid
        = decide (60 ≤ (validateAIResponse answer documents).score)
    ∧ (validateAIResponse answer documents).score
        = (if (validateAIResponse answer documents).hasConfidence then 25 else 0)
          + (if (validateAIResponse answer documents).hasCitation
               || (validateAIResponse answer documents).isNotFound then 25 else 0)
          + (if (validateAIResponse answer documents).qualityMetrics.hasCodeExamples then 15 else 0)
          + (if (validateAIResponse answer documents).qualityMetrics.hasStepByStep then 15 else 0)
          + (if (validateAIResponse answer documents).qualityMetrics.hasSpeculativeLanguage
               then 0 else 10)
          + (if 50 ≤ (validateAIResponse answer documents).qualityMetrics.wordCount then 10 else 0)
    ∧ (validateAIResponse "Confidence: HIGH [Source: a](b)" []).score = 60
    ∧ (validateAIResponse "Confidence: HIGH [Source: a](b)" []).isValid = true := by
  refine ⟨?_, rfl, ?_, by decide, by decide⟩
  · simp only [validateAIResponse]
    exact rubricScore_le_100 _ _ _ _ _ _ _
  · simp only [validateAIResponse, rubricScore]
    rw [ite_not_bool]

/-- Claim C2: whenever the document list is non-empty, the answer has zero
matches of the `[Source: ...](...)` citation pattern, and the answer is not
a not-found response, the warnings returned by `validateAIResponse` contain
the warning about referencing provided documents. -/
theorem claim2_missing_reference_warning (answer : String) (documents : List Document)
    (hdocs : documents ≠ []) (hcit : countCitations answer.data = 0)
    (hnf : isNotFoundIn (lowerChars answer.data) = false) :
    "Response should reference provided documents"
      ∈ (validateAIResponse answer documents).warnings := by
  have hlen : 0 < documents.length := List.length_pos.2 hdocs
  simp [validateAIResponse, hcit, hnf, hlen]

/-- Witness for claim C2 at the concrete answer "x" with one document. -/
theorem claim2_missing_reference_warning_witness :
    "Response should reference provided documents"
      ∈ (validateAIResponse "x" [⟨"t", "u", "c"⟩]).warnings :=
  claim2_missing_reference_warning "x" [⟨"t", "u", "c"⟩] (by decide) (by decide) (by decide)

/-- Counterexample to claim C3 as stated: on the regex fallback path the
query "How do I configure X?" is assigned the category "how-to" (the
how-to alternative `how\s+do` matches and is tested first), not
"configuration". -/
theorem claim3_counterexample :
    (analyzeQueryIntent (.error ()) "How do I configure X?").type = JsonVal.str "how-to"
    ∧ (analyzeQueryIntent (.error ()) "How do I configure X?").type
        ≠ JsonVal.str "configuration" := by
  refine ⟨rfl, ?_⟩
  intro h
  have h2 : JsonVal.str "how-to" = JsonVal.str "configuration" := h
  injection h2 with h3
  exact absurd h3 (by decide)

/-- Claim C3 amended: when the model-call path fails and the regex fallback
is taken, the query "How do I configure X?" is assigned category "how-to"
(the how-to pattern precedes the configuration pattern in the ordered
heuristics); a configure-query without a how-phrase, such as
"Configure X", is assigned category "configuration". -/
theorem claim3_amended :
    (analyzeQueryIntent (.error ()) "How do I configure X?").type = JsonVal.str "how-to"
    ∧ (analyzeQueryIntent (.error ()) "Configure X").type = JsonVal.str "configuration" :=
  ⟨rfl, rfl⟩

/-- Claim C4, evaluation of the code at the failing input: when the model
reply parses to an object whose "type" field is the unknown truthy string
"banana", `analyzeQueryIntent` returns that string as the category — the
`||`-fallback replaces only falsy values, so unknown category output is
not clamped to "general" and the result leaves the six-value enumeration
declared for `QueryAnalysis.type`. -/
theorem claim4_unknown_category_passthrough :
    (analyzeQueryIntent (.ok (.obj [("type", .str "banana")])) "q").type = JsonVal.str "banana"
    ∧ "banana" ∉ categoryStrings :=
  ⟨rfl, by decide⟩

/-- Claim C5: for every query, when the model call throws or its output is
unparseable JSON (`.error` in the embedding), `analyzeQueryIntent` returns
the regex-based fallback analysis rather than propagating the failure; the
fallback keywords are the lowercase whitespace tokens longer than 2
characters capped at 5, and the fallback complexity is "beginner".  The
embedded function is total, so a `QueryAnalysisJs` value is returned for
every outcome. -/
theorem claim5_fallback_never_raises (q : String) :
    analyzeQueryIntent (.error ()) q = fallbackAnalysis q
    ∧ (fallbackAnalysis q).keywords
        = ((((jsSplitWs (lowerChars q.data)).filter (fun w => decide (2 < w.length))).map
              String.mk).take 5).map JsonVal.str
    ∧ (fallbackAnalysis q).complexity = JsonVal.str "beginner" :=
  ⟨rfl, rfl, rfl⟩

/-- Inserting into the stable descending sort permutes the extended list. -/
theorem insertByKeyDesc_perm {α : Type} (key : α → ℚ) (x : α) (l : List α) :
    (insertByKeyDesc key x l).Perm (x :: l) := by
  induction l with
  | nil => simp [insertByKeyDesc]
  | cons y ys ih =>
    simp only [insertByKeyDesc]
    split
    · exact .refl _
    · exact (ih.cons y).trans (List.Perm.swap x y ys)

/-- The stable descending sort permutes its input. -/
theorem sortByKeyDesc_perm {α : Type} (key : α → ℚ) (l : List α) :
    (sortByKeyDesc key l).Perm l := by
  induction l with
  | nil => exact .refl _
  | cons x xs ih => exact (insertByKeyDesc_perm key x _).trans (ih.cons x)

/-- Insertion preserves descending sortedness by the key. -/
theorem insertByKeyDesc_sorted {α : Type} (key : α → ℚ) (x : α) (l : List α)
    (h : l.Sorted (fun a b => key b ≤ key a)) :
    (insertByKeyDesc key x l).Sorted (fun a b => key b ≤ key a) := by
  induction l with
  | nil => simp [insertByKeyDesc]
  | cons y ys ih =>
    rw [List.sorted_cons] at h
    simp only [insertByKeyDesc]
    split
    · rename_i hle
      rw [List.sorted_cons]
      refine ⟨?_, by rw [List.sorted_cons]; exact h⟩
      intro b hb
      rcases List.mem_cons.1 hb with rfl | hb2
      · exact hle
      · exact le_trans (h.1 b hb2) hle
    · rename_i hgt
      rw [List.sorted_cons]
      refine ⟨?_, ih h.2⟩
      intro b hb
      rcases List.mem_cons.1 ((insertByKeyDesc_perm key x ys).mem_iff.1 hb) with rfl | hb2
      · exact le_of_not_le hgt
      · exact h.1 b hb2

/-- The stable descending sort produces a descending list. -/
theorem sortByKeyDesc_sorted {α : Type} (key : α → ℚ) (l : List α) :
    (sortByKeyDesc key l).Sorted (fun a b => key b ≤ key a) := by
  induction l with
  | nil => simp [sortByKeyDesc]
  | cons x xs ih => exact insertByKeyDesc_sorted key x _ ih

/-- Filtering one key class through an insertion: the inserted element
lands in front of exactly its own class, every other class is untouched —
the inserted (later) element never overtakes an equal-key element. -/
theorem insertByKeyDesc_filter {α : Type} (key : α → ℚ) (c : ℚ) (x : α) (l : List α) :
    (insertByKeyDesc key x l).filter (fun a => decide (key a = c))
      = if key x = c then x :: l.filter (fun a => decide (key a = c))
        else l.filter (fun a => decide (key a = c)) := by
  induction l with
  | nil => by_cases hxc : key x = c <;> simp [insertByKeyDesc, hxc]
  | cons y ys ih =>
    simp only [insertByKeyDesc]
    split
    · rename_i hle
      by_cases hxc : key x = c <;> simp [List.filter_cons, hxc]
    · rename_i hgt
      by_cases hxc : key x = c
      · have hxy : key x < key y := lt_of_not_le hgt
        have hyc : key y ≠ c := by rw [← hxc]; exact ne_of_gt hxy
        simp [List.filter_cons, hxc, hyc, ih]
      · by_cases hyc : key y = c <;> simp [List.filter_cons, hxc, hyc, ih]

/-- Stability of the sort: each equal-key class keeps its input order. -/
theorem sortByKeyDesc_filter {α : Type} (key : α → ℚ) (c : ℚ) (l : List α) :
    (sortByKeyDesc key l).filter (fun a => decide (key a = c))
      = l.filter (fun a => decide (key a = c)) := by
  induction l with
  | nil => rfl
  | cons x xs ih =>
    simp only [sortByKeyDesc]
    rw [insertByKeyDesc_filter]
    by_cases hxc : key x = c <;> simp [List.filter_cons, hxc, ih]

/-- Claim C6: for every four input source lists, the sources returned by
`aggregateMultiSourceResults` are the merged list sorted in descending
order of the key `weight + 0.1 if type == "resolved" else weight`
(a permutation of the merged list, pairwise descending in the key), the
sort is stable for ties (each equal-key class keeps its input order), and
in particular a resolved item of base weight 0.3 (key 0.4) ranks above a
non-resolved item of weight 0.35. -/
theorem claim6_aggregator_sort (mo : Except Unit (Option String)) (query : String)
    (docs : List DocResult) (gh bl cl : List MultiSourceResult) (sc : Option String) :
    ((aggregateMultiSourceResults mo query docs gh bl cl sc).sources).Perm
        (docs.map docToSource ++ gh ++ bl ++ cl)
    ∧ ((aggregateMultiSourceResults mo query docs gh bl cl sc).sources).Sorted
        (fun a b => sortKey b ≤ sortKey a)
    ∧ (∀ c : ℚ,
        ((aggregateMultiSourceResults mo query docs gh bl cl sc).sources).filter
            (fun x => decide (sortKey x = c))
          = (docs.map docToSource ++ gh ++ bl ++ cl).filter (fun x => decide (sortKey x = c)))
    ∧ (aggregateMultiSourceResults (.ok none) "" []
         [⟨.github, "open35", "", "", ⟨7/20, none, none, some "open"⟩⟩,
          ⟨.github, "resolved30", "", "", ⟨3/10, none, none, some "resolved"⟩⟩] [] [] none).sources
        = [⟨.github, "resolved30", "", "", ⟨3/10, none, none, some "resolved"⟩⟩,
           ⟨.github, "open35", "", "", ⟨7/20, none, none, some "open"⟩⟩] := by
  have hsrc : (aggregateMultiSourceResults mo query docs gh bl cl sc).sources
      = sortByKeyDesc sortKey (docs.map docToSource ++ gh ++ bl ++ cl) := by
    cases mo <;> rfl
  refine ⟨?_, ?_, ?_, ?_⟩
  · rw [hsrc]; exact sortByKeyDesc_perm _ _
  · rw [hsrc]; exact sortByKeyDesc_sorted _ _
  · intro c; rw [hsrc]; exact sortByKeyDesc_filter _ _ _
  · simp only [aggregateMultiSourceResults, sortByKeyDesc, insertByKeyDesc, sortKey, List.map_nil,
      List.nil_append, List.append_nil]
    have hopen : ((some "open" : Option String) = some "resolved") = False := by simp
    have hres : ((some "resolved" : Option String) = some "resolved") = True := by simp
    simp only [hopen, hres, if_true, if_false]
    rw [if_neg (by norm_num)]

/-- Claim C7: on the success path of the aggregation model call, the
confidence score equals `min(100, 10*sourceCount + 15*resolvedGithubCount
+ 20*documentationCount)` for every combination of input lists (the counts
taken over the merged list; `Math.round` is the identity on this integer
sum). -/
theorem claim7_confidence_formula (content : Option String) (query : String)
    (docs : List DocResult) (gh bl cl : List MultiSourceResult) (sc : Option String) :
    (aggregateMultiSourceResults (.ok content) query docs gh bl cl
        sc).aggregationMetrics.confidenceScore
      = min 100 (10 * (docs.map docToSource ++ gh ++ bl ++ cl).length
          + 15 * (gh.filter (fun r => decide (r.metadata.type = some "resolved"))).length
          + 20 * ((docs.map docToSource ++ gh ++ bl ++ cl).filter
                    (fun s => decide (s.source = SourceTag.documentation))).length) := by
  simp only [aggregateMultiSourceResults]
  have hlen : (sortByKeyDesc sortKey (docs.map docToSource ++ gh ++ bl ++ cl)).length
      = (docs.map docToSource ++ gh ++ bl ++ cl).length :=
    (sortByKeyDesc_perm _ _).length_eq
  have hfil : ((sortByKeyDesc sortKey (docs.map docToSource ++ gh ++ bl ++ cl)).filter
        (fun s => decide (s.source = SourceTag.documentation))).length
      = ((docs.map docToSource ++ gh ++ bl ++ cl).filter
        (fun s => decide (s.source = SourceTag.documentation))).length :=
    ((sortByKeyDesc_perm _ _).filter _).length_eq
  rw [hlen, hfil]
  omega

/-- Claim C8: when the aggregation model call throws,
`aggregateMultiSourceResults` returns (the embedding is a total function,
so the fallback never throws) a result whose answer is the fixed-format
concatenation of the title, source type, and first 200 content characters
of each source, and whose confidence score is exactly 50. -/
theorem claim8_aggregation_fallback (query : String) (docs : List DocResult)
    (gh bl cl : List MultiSourceResult) (sc : Option String) :
    (aggregateMultiSourceResults (.error ()) query docs gh bl cl sc).answer
      = "Based on multiple sources:\n\n"
        ++ String.intercalate "\n\n"
            ((sortByKeyDesc sortKey (docs.map docToSource ++ gh ++ bl ++ cl)).map (fun s =>
              "**" ++ s.title ++ "** (" ++ s.source.toStr ++ "): "
                ++ String.mk (s.content.data.take 200) ++ "..."))
    ∧ (aggregateMultiSourceResults (.error ()) query docs gh bl cl
        sc).aggregationMetrics.confidenceScore = 50 :=
  ⟨rfl, rfl⟩

/-- A capped append that stays within the cap is a plain append. -/
theorem appendTurnCapped_of_le (acc : List ConversationTurn) (t : ConversationTurn)
    (h : (acc ++ [t]).length ≤ 10) : appendTurnCapped acc t = acc ++ [t] := by
  simp only [appendTurnCapped]
  rw [if_neg (Nat.not_lt.2 h)]

/-- Folding capped appends over few enough turns is a plain append. -/
theorem foldl_appendTurnCapped_of_le (l : List ConversationTurn) :
    ∀ acc : List ConversationTurn, acc.length + l.length ≤ 10 →
      l.foldl appendTurnCapped acc = acc ++ l := by
  induction l with
  | nil => intro acc _; simp
  | cons t ts ih =>
    intro acc h
    simp only [List.length_cons] at h
    rw [List.foldl_cons, appendTurnCapped_of_le acc t (by simp; omega),
      ih (acc ++ [t]) (by simp; omega)]
    simp

/-- Claim C9: the turn list of a session never exceeds the cap of 10 after any
append; appending 11 turns to a fresh session leaves exactly the 10 most
recent turns, the oldest dropped (FIFO); and the history read reports one
entry per stored turn. -/
theorem claim9_session_turn_cap :
    (∀ (turns : List ConversationTurn) (t : ConversationTurn),
        turns.length ≤ 10 → (appendTurnCapped turns t).length ≤ 10)
    ∧ (∀ ts : List ConversationTurn, ts.length = 11 →
        ts.foldl appendTurnCapped [] = ts.drop 1
        ∧ (ts.foldl appendTurnCapped []).length = 10)
    ∧ (∀ s : ConversationSession,
        getHistory s = s.turns.map projectTurn
        ∧ (getHistory s).length = s.turns.length) := by
  refine ⟨?_, ?_, ?_⟩
  · intro turns t h
    simp only [appendTurnCapped]
    split
    · rename_i hgt
      simp only [List.length_drop]
      omega
    · rename_i hle
      simp only [List.length_append, List.length_cons, List.length_nil] at hle ⊢
      omega
  · intro ts hlen
    have hne : ts ≠ [] := by intro hnil; rw [hnil] at hlen; simp at hlen
    have hsplit := List.dropLast_append_getLast hne
    have hdl : ts.dropLast.length = 10 := by
      rw [List.length_dropLast, hlen]
    have hfold : ts.foldl appendTurnCapped [] = ts.drop 1 := by
      conv_lhs => rw [← hsplit]
      rw [List.foldl_append]
      rw [foldl_appendTurnCapped_of_le ts.dropLast [] (by simp [hdl])]
      simp only [List.foldl_cons, List.foldl_nil, List.nil_append]
      simp only [appendTurnCapped]
      rw [if_pos (by simp [hdl])]
      rw [hsplit]
      simp [hdl, hlen]
    exact ⟨hfold, by rw [hfold, List.length_drop, hlen]⟩
  · intro s
    exact ⟨rfl, by simp [getHistory]⟩

/-- Witness for claim C9: eleven concrete appended turns leave the ten
most recent ones. -/
theorem claim9_session_turn_cap_witness :
    ((List.range 11).map (fun i =>
        (⟨toString i, "", i, none, none, none⟩ : ConversationTurn))).foldl appendTurnCapped []
      = ((List.range 11).map (fun i =>
          (⟨toString i, "", i, none, none, none⟩ : ConversationTurn))).drop 1 :=
  (claim9_session_turn_cap.2.1 _ (by simp)).1

/-- A keyed store update is observed at the updated key. -/
theorem lookup_update_self (sid : String) (s2 : ConversationSession) :
    ∀ (store : SessionStore) (s : ConversationSession),
      lookupSession store sid = some s →
      lookupSession (store.map (fun p => if p.1 = sid then (p.1, s2) else p)) sid = some s2 := by
  intro store
  induction store with
  | nil => intro s h; simp [lookupSession] at h
  | cons p rest ih =>
    intro s h
    simp only [lookupSession, List.map_cons] at h ⊢
    by_cases hp : p.1 = sid
    · rw [if_pos hp]
      simp [lookupSession, hp]
    · rw [if_neg hp]
      simp only [lookupSession, if_neg hp] at h ⊢
      exact ih s h

/-- A keyed store update is invisible at every other key. -/
theorem lookup_update_other (sid sid2 : String) (s2 : ConversationSession) (hne : sid2 ≠ sid) :
    ∀ store : SessionStore,
      lookupSession (store.map (fun p => if p.1 = sid then (p.1, s2) else p)) sid2
        = lookupSession store sid2 := by
  intro store
  induction store with
  | nil => rfl
  | cons p rest ih =>
    simp only [List.map_cons]
    by_cases hp : p.1 = sid
    · rw [if_pos hp]
      have hp2 : ¬ p.1 = sid2 := by rw [hp]; exact Ne.symm hne
      simp only [lookupSession]
      rw [if_neg (show ¬ ((p.1, s2).1 = sid2) from hp2), if_neg hp2]
      exact ih
    · rw [if_neg hp]
      by_cases hp2 : p.1 = sid2
      · simp [lookupSession, hp2]
      · simp only [lookupSession, if_neg hp2]
        exact ih

/-- Claim C10: reading the history of a session is not a pure read — for
an existing sessionId the GET history handler responds with the projected
turns, createdAt and the refreshed lastActiveAt, and updates exactly the
lastActiveAt of that session to the current time, leaving its turns,
createdAt and context and every other session unchanged; for a missing
sessionId it responds 404 and leaves the store unchanged. -/
theorem claim10_history_frame :
    (∀ (store : SessionStore) (sid : String) (now : Nat) (s : ConversationSession),
        lookupSession store sid = some s →
          (sessionHistoryHandler store sid now).1
              = HistoryOutcome.ok sid (s.turns.map projectTurn) s.createdAt now
          ∧ lookupSession (sessionHistoryHandler store sid now).2 sid
              = some { s with lastActiveAt := now }
          ∧ ∀ sid2, sid2 ≠ sid →
              lookupSession (sessionHistoryHandler store sid now).2 sid2
                = lookupSession store sid2)
    ∧ (∀ (store : SessionStore) (sid : String) (now : Nat),
        lookupSession store sid = none →
          sessionHistoryHandler store sid now = (.notFound, store)) := by
  constructor
  · intro store sid now s h
    refine ⟨?_, ?_, ?_⟩
    · simp [sessionHistoryHandler, h]
    · simp only [sessionHistoryHandler, h]
      exact lookup_update_self sid _ store s h
    · intro sid2 hne
      simp only [sessionHistoryHandler, h]
      exact lookup_update_other sid sid2 _ hne store
  · intro store sid now h
    simp [sessionHistoryHandler, h]

/-- Witness for claim C10: a one-session store at the stored id, with the
lastActiveAt refreshed to the request time and the other fields intact. -/
theorem claim10_history_frame_witness :
    lookupSession
        ((sessionHistoryHandler [("A", ⟨"A", [], 1, 2, "ctx"⟩)] "A" 7).2) "A"
      = some ⟨"A", [], 1, 7, "ctx"⟩ :=
  (claim10_history_frame.1 [("A", ⟨"A", [], 1, 2, "ctx"⟩)] "A" 7 ⟨"A", [], 1, 2, "ctx"⟩ rfl).2.1
